import Mathlib

/-! The configuration builder and the request dispatcher of swagger_ui_config.

A shallow embedding of `src/config.go`, `src/handler.go` (package
`swagger_ui_config`) and `src/swagger-ui.go` (package `doc`).

Go strings are byte sequences; those the code handles are modelled by
`String`, on which the prefix test and the search for a slash or a dot
agree with the byte-wise ones for UTF-8 text.  The standard-library
functions the code calls (`strings.TrimPrefix`, `filepath.Ext`, `filepath.Base`,
`filepath.WalkDir`, `filepath.Rel`) are modelled in the namespaces
`strings` and `filepath`, after their Go sources, for a Unix path
separator.
-/

set_option autoImplicit false

/-! ## Go standard library: `strings` -/

namespace strings

/-- Go `strings.HasPrefix(s, prefix)`. -/
def HasPrefix (s pre : String) : Bool :=
  pre.data.isPrefixOf s.data

/-- Go `strings.TrimPrefix(s, prefix)`: `s` without the leading `prefix`,
or `s` itself when it does not start with `prefix`. -/
def TrimPrefix (s pre : String) : String :=
  if HasPrefix s pre then ⟨s.data.drop pre.data.length⟩ else s

end strings

/-! ## Go standard library: `path/filepath` (string part) -/

namespace filepath

/-- The loop of `filepath.Ext`, run over the reversed path: `acc` is the
suffix already passed.  It stops at a separator (no extension) or at the
first dot met from the end (the extension starts there). -/
def extScan : List Char → List Char → List Char
  | [], _ => []
  | c :: rest, acc =>
    if c = '/' then []
    else if c = '.' then c :: acc
    else extScan rest (c :: acc)

/-- Go `filepath.Ext(path)`: the suffix beginning at the final dot of the
final element of `path`, empty if there is none. -/
def Ext (path : String) : String :=
  ⟨extScan path.data.reverse []⟩

/-- Go `filepath.Base(path)`: the last element of `path`, after removing
trailing separators; `.` for the empty path and `/` for a path of
separators only. -/
def Base (path : String) : String :=
  if path = "" then "."
  else
    let stripped := path.data.reverse.dropWhile (fun c => c = '/')
    let last := (stripped.takeWhile (fun c => c ≠ '/')).reverse
    if last = [] then "/" else ⟨last⟩

end filepath

/-! ## Go standard library: the file system and `filepath.WalkDir` -/

namespace fs

/-- The errors the operating system can report to the walk. -/
inductive Err where
  | lstat
  | readDir
  | readlink
  | rel
  deriving DecidableEq, Repr

/-- What `os.Lstat` and `os.ReadDir` find at a path, symlinks not followed.
A symlink carries what `os.Readlink` returns for it (`none`: an error).  A
directory carries the entries `os.ReadDir` returns, in the order it returns
them, and whether it also returned an error. -/
inductive Node where
  | file : Node
  | symlink (target : Option String) : Node
  | dir (entries : List (String × Node)) (readErr : Bool) : Node

/-- The file system as the walk sees it: `lstat p` is the tree at path `p`,
`none` when `os.Lstat p` fails. -/
structure FileSystem where
  lstat : String → Option Node

end fs

namespace filepath

open fs

/-- A path handed to a `WalkDirFunc`: the root as passed to `WalkDir` and
the names of the entries descended through.  Go passes the string
`Join(root, names...)`. -/
structure WalkPath where
  root : String
  names : List String
  deriving DecidableEq, Repr

/-- The string of a walk path, the root and the names joined by the
separator: Go's `Join(root, names...)` for a clean root other than `.` and
`/`.  The code reads it only where `filepath.Rel` gives the empty string. -/
def WalkPath.str (p : WalkPath) : String :=
  if p.names = [] then p.root else p.root ++ "/" ++ "/".intercalate p.names

/-- Go `filepath.Rel(basepath, targpath)` where `targpath` is a path of the
walk rooted at `basepath`: `.` for the root itself, else the names below
the root joined by the separator, and no error.  Any other pair of
arguments, which the code never forms, is reported as an error. -/
def Rel (basepath : String) (targpath : WalkPath) : String × Option Err :=
  if basepath = targpath.root then
    if targpath.names = [] then (".", none)
    else ("/".intercalate targpath.names, none)
  else ("", some Err.rel)

/-- Go `fs.WalkDirFunc`, with the state the callback updates passed
through.  The entry is `none` where Go passes a nil `DirEntry`. -/
abbrev WalkDirFunc (σ : Type) :=
  WalkPath → Option Node → Option Err → σ → σ × Option Err

mutual
/-- Go `filepath.walkDir`: calls the function on the entry, then, for a
directory, reads it, reports a read error by a second call, and descends
into the entries in order; the first error returned ends the walk.  The
`SkipDir` and `SkipAll` values are left out: no callback of this program
returns them. -/
def walkDir {σ : Type} (fn : WalkDirFunc σ) (root : String) (names : List String)
    (d : Node) (s : σ) : σ × Option Err :=
  match fn ⟨root, names⟩ (some d) none s with
  | (s1, some e) => (s1, some e)
  | (s1, none) =>
    match d with
    | Node.dir entries readErr =>
      if readErr then
        match fn ⟨root, names⟩ (some d) (some Err.readDir) s1 with
        | (s2, some e) => (s2, some e)
        | (s2, none) => walkEntries fn root names entries s2
      else walkEntries fn root names entries s1
    | _ => (s1, none)
/-- The loop `for _, d1 := range dirs` of `filepath.walkDir`. -/
def walkEntries {σ : Type} (fn : WalkDirFunc σ) (root : String) (names : List String)
    (entries : List (String × Node)) (s : σ) : σ × Option Err :=
  match entries with
  | [] => (s, none)
  | (name, d1) :: rest =>
    match walkDir fn root (names ++ [name]) d1 s with
    | (s1, some e) => (s1, some e)
    | (s1, none) => walkEntries fn root names rest s1
end

/-- Go `filepath.WalkDir(root, fn)`. -/
def WalkDir {σ : Type} (fsys : FileSystem) (root : String) (fn : WalkDirFunc σ)
    (s : σ) : σ × Option Err :=
  match fsys.lstat root with
  | none => fn ⟨root, []⟩ none (some Err.lstat) s
  | some d => walkDir fn root [] d s

end filepath

/-! ## Data model (`config.go`) -/

namespace swagger_ui_config

structure DefinitionURL where
  Name : String
  URL : String
  deriving DecidableEq, Repr

/-- OAuthConfig stores configuration for Swagger UI OAuth2 integration. -/
structure OAuthConfig where
  ClientId : String
  Realm : String
  AppName : String
  deriving DecidableEq, Repr

/-- SwaggerUIConfig stores swagger configuration variables.  The pointer
field `OAuth *OAuthConfig` is an `Option`. -/
structure SwaggerUIConfig where
  Title : String
  DocDir : String
  PathPrefix : String
  DisableIndexTemplate : Bool
  URLs : List DefinitionURL
  DocExpansion : String
  ShowExtensions : Bool
  DomID : String
  DeepLinking : Bool
  PersistAuthorization : Bool
  SyntaxHighlight : Bool
  OAuth : Option OAuthConfig
  deriving DecidableEq, Repr

end swagger_ui_config

/-! ## HTTP vocabulary shared by both handlers -/

namespace http

/-- The part of `*http.Request` the handlers read. -/
structure Request where
  /-- The field `r.Method`. -/
  Method : String
  /-- The value of `r.URL.EscapedPath()`. -/
  EscapedPath : String
  deriving DecidableEq, Repr

/-- The three templates parsed in `Handler`. -/
inductive Template where
  | indexHtml
  | indexJS
  | indexCSS
  deriving DecidableEq, Repr

/-- What a handler does to the response writer, in order.  `Config` is the
type of the value the templates are executed against. -/
inductive Action (Config : Type) where
  /-- The call `http.Error(w, msg, code)`. -/
  | Error (msg : String) (code : Nat)
  /-- The call `tpl.Execute(w, config)`. -/
  | Execute (tpl : Template) (config : Config)
  /-- The call `docFS.ServeHTTP(w, r)`: the file server over `http.Dir(root)`,
  with `r.URL.Path = urlPath`. -/
  | ServeDocFS (root : String) (urlPath : String)
  /-- The call `http.FileServer(http.FS(swaggerFiles.FS)).ServeHTTP(w, r)` with
  `r.URL.Path = urlPath`. -/
  | ServeSwaggerFiles (urlPath : String)
  /-- The deferred `f.Flush()`. -/
  | Flush
  deriving DecidableEq, Repr

def StatusMethodNotAllowed : Nat := 405

def MethodGet : String := "GET"

end http

namespace swagger_ui_config

/-! ## Options and `newConfig` (`config.go`) -/

/-- WithTitle the page tile display on browser. -/
def WithTitle (title : String) : SwaggerUIConfig → SwaggerUIConfig :=
  fun c => { c with Title := title }

def WithDocDir (dir : String) : SwaggerUIConfig → SwaggerUIConfig :=
  fun c => { c with DocDir := dir }

def WithPathPrefix (pre : String) : SwaggerUIConfig → SwaggerUIConfig :=
  fun c => { c with PathPrefix := pre }

def WithDisableIndexTemplate (disable : Bool) : SwaggerUIConfig → SwaggerUIConfig :=
  fun c => { c with DisableIndexTemplate := disable }

/-- WithURL presents the url pointing to API definition. -/
def WithURL (url : String) : SwaggerUIConfig → SwaggerUIConfig :=
  fun c => { c with URLs := c.URLs ++ [{ URL := url, Name := url }] }

/-- WithDefinitionURL presents the url pointing to API definition with name. -/
def WithDefinitionURL (du : DefinitionURL) : SwaggerUIConfig → SwaggerUIConfig :=
  fun c => { c with URLs := c.URLs ++ [du] }

def WithDeepLinking (deepLinking : Bool) : SwaggerUIConfig → SwaggerUIConfig :=
  fun c => { c with DeepLinking := deepLinking }

def WithSyntaxHighlight (syntaxHighlight : Bool) : SwaggerUIConfig → SwaggerUIConfig :=
  fun c => { c with SyntaxHighlight := syntaxHighlight }

def WithDocExpansion (docExpansion : String) : SwaggerUIConfig → SwaggerUIConfig :=
  fun c => { c with DocExpansion := docExpansion }

def WithShowExtensions (IsShown : Bool) : SwaggerUIConfig → SwaggerUIConfig :=
  fun c => { c with ShowExtensions := IsShown }

def WithDomID (domID : String) : SwaggerUIConfig → SwaggerUIConfig :=
  fun c => { c with DomID := domID }

def WithPersistAuthorization (enable : Bool) : SwaggerUIConfig → SwaggerUIConfig :=
  fun c => { c with PersistAuthorization := enable }

def WithOAuth (config : Option OAuthConfig) : SwaggerUIConfig → SwaggerUIConfig :=
  fun c => { c with OAuth := config }

/-- The loop body of `fixURLName` on one entry. -/
def fixName (u : DefinitionURL) : DefinitionURL :=
  if u.Name = "" then { u with Name := u.URL } else u

def fixURLName : SwaggerUIConfig → SwaggerUIConfig :=
  fun c => { c with URLs := c.URLs.map fixName }

/-- The closure `addURLs` of `newConfig`, on the URL list it appends to. -/
def addURLs (dir : String) (path : filepath.WalkPath) (urls : List DefinitionURL) :
    List DefinitionURL × Option fs.Err :=
  let relPath := (filepath.Rel dir path).1
  let relPath := if relPath = "" then path.str else relPath
  if filepath.Ext relPath = ".json" ∨ filepath.Ext relPath = ".yaml"
      ∨ filepath.Ext relPath = ".yml" then
    (urls ++ [{ Name := filepath.Base relPath, URL := relPath }], none)
  else
    (urls, none)

/-- The function `newConfig` passes to the walk of the symlink target. -/
def innerWalkFn (realDir : String) : filepath.WalkDirFunc (List DefinitionURL) :=
  fun path _ _ urls => addURLs realDir path urls

/-- The function `newConfig` passes to the walk of the documentation
directory.  The error of the inner walk is assigned and never read. -/
def walkFn (fsys : fs.FileSystem) (docDir : String) :
    filepath.WalkDirFunc (List DefinitionURL) :=
  fun path d err urls =>
    match err with
    | some e => (urls, some e)
    | none =>
      match d with
      | some (fs.Node.symlink target) =>
        match target with
        | none => (urls, some fs.Err.readlink)
        | some realDir =>
          let urls1 := (filepath.WalkDir fsys realDir (innerWalkFn realDir) urls).1
          addURLs docDir path urls1
      | _ => addURLs docDir path urls

/-- The defaults `newConfig` starts from; the fields the literal leaves out
have Go zero values. -/
def defaultConfig : SwaggerUIConfig :=
  { Title := ""
    DocDir := "docs"
    PathPrefix := ""
    DisableIndexTemplate := false
    URLs := []
    DocExpansion := "list"
    ShowExtensions := true
    DomID := "swagger-ui"
    DeepLinking := true
    PersistAuthorization := false
    SyntaxHighlight := true
    OAuth := none }

def newConfig (fsys : fs.FileSystem) (configFns : List (SwaggerUIConfig → SwaggerUIConfig)) :
    SwaggerUIConfig :=
  let config := (configFns ++ [fixURLName]).foldl (fun c fn => fn c) defaultConfig
  if config.URLs.length = 0 then
    { config with
      URLs := (filepath.WalkDir fsys config.DocDir (walkFn fsys config.DocDir) config.URLs).1 }
  else
    config

end swagger_ui_config

/-! ## The dispatcher of `handler.go` -/

namespace swagger_ui_config

open http

/-- The local `prefix` of the handler closure:
`"/" + strings.TrimPrefix(config.PathPrefix, "/")`. -/
def normPrefix (config : SwaggerUIConfig) : String :=
  "/" ++ strings.TrimPrefix config.PathPrefix "/"

/-- The local `relPath` of the handler closure. -/
def relPathOf (config : SwaggerUIConfig) (r : Request) : String :=
  strings.TrimPrefix r.EscapedPath (normPrefix config)

/-- The `switch relPath` of the handler closure in `handler.go`. -/
def dispatch (config : SwaggerUIConfig) (relPath : String) :
    List (Action SwaggerUIConfig) :=
  if relPath = "" ∨ relPath = "/" ∨ relPath = "index" ∨ relPath = "index.html"
      ∨ relPath = "/index.html" then
    if !config.DisableIndexTemplate then
      [Action.Execute Template.indexHtml config]
    else
      [Action.ServeDocFS config.DocDir "/"]
  else if relPath = "/swagger-initializer.js" then
    [Action.Execute Template.indexJS config]
  else if relPath = "index.css" then
    [Action.Execute Template.indexCSS config]
  else
    if filepath.Ext relPath = ".json" ∨ filepath.Ext relPath = ".yaml"
        ∨ filepath.Ext relPath = ".yml" then
      [Action.ServeDocFS config.DocDir relPath]
    else
      [Action.ServeSwaggerFiles relPath]

/-- The closure returned by `Handler` in `handler.go`, for the
configuration it captured.  `flusher` tells whether the response writer is
an `http.Flusher`. -/
def handlerFunc (config : SwaggerUIConfig) (flusher : Bool) (r : Request) :
    List (Action SwaggerUIConfig) :=
  if r.Method ≠ MethodGet then
    [Action.Error "Method not allowed" StatusMethodNotAllowed]
  else
    dispatch config (relPathOf config r) ++ (if flusher then [Action.Flush] else [])

end swagger_ui_config

namespace swagger_ui_config

/-- The function `Handler` of `handler.go`: builds the configuration once and
returns the closure over it. -/
def Handler (fsys : fs.FileSystem) (options : List (SwaggerUIConfig → SwaggerUIConfig)) :
    Bool → http.Request → List (http.Action SwaggerUIConfig) :=
  handlerFunc (newConfig fsys options)

end swagger_ui_config

/-! ## Package `doc` (`swagger-ui.go`)

The file repeats `config.go` and `handler.go` with the flag
`UseIndexTemplate` in place of `DisableIndexTemplate` and the initializer
script matched without a leading slash.  `DefinitionURL`, `OAuthConfig`,
`fixURLName`'s loop body and the closures of the directory walk are
declared there word for word as in `config.go` and are shared here. -/

namespace doc

open http

structure SwaggerUIConfig where
  Title : String
  DocDir : String
  PathPrefix : String
  UseIndexTemplate : Bool
  URLs : List swagger_ui_config.DefinitionURL
  DocExpansion : String
  ShowExtensions : Bool
  DomID : String
  DeepLinking : Bool
  PersistAuthorization : Bool
  SyntaxHighlight : Bool
  OAuth : Option swagger_ui_config.OAuthConfig
  deriving DecidableEq, Repr

def fixURLName : SwaggerUIConfig → SwaggerUIConfig :=
  fun c => { c with URLs := c.URLs.map swagger_ui_config.fixName }

def defaultConfig : SwaggerUIConfig :=
  { Title := ""
    DocDir := "docs"
    PathPrefix := ""
    UseIndexTemplate := false
    URLs := []
    DocExpansion := "list"
    ShowExtensions := true
    DomID := "swagger-ui"
    DeepLinking := true
    PersistAuthorization := false
    SyntaxHighlight := true
    OAuth := none }

def newConfig (fsys : fs.FileSystem) (configFns : List (SwaggerUIConfig → SwaggerUIConfig)) :
    SwaggerUIConfig :=
  let config := (configFns ++ [fixURLName]).foldl (fun c fn => fn c) defaultConfig
  if config.URLs.length = 0 then
    { config with
      URLs := (filepath.WalkDir fsys config.DocDir
        (swagger_ui_config.walkFn fsys config.DocDir) config.URLs).1 }
  else
    config

/-- The local `prefix` of the handler closure. -/
def normPrefix (config : SwaggerUIConfig) : String :=
  "/" ++ strings.TrimPrefix config.PathPrefix "/"

/-- The local `relPath` of the handler closure. -/
def relPathOf (config : SwaggerUIConfig) (r : Request) : String :=
  strings.TrimPrefix r.EscapedPath (normPrefix config)

/-- The `switch relPath` of the handler closure in `swagger-ui.go`. -/
def dispatch (config : SwaggerUIConfig) (relPath : String) :
    List (Action SwaggerUIConfig) :=
  if relPath = "" ∨ relPath = "/" ∨ relPath = "index" ∨ relPath = "index.html"
      ∨ relPath = "/index.html" then
    if config.UseIndexTemplate then
      [Action.Execute Template.indexHtml config]
    else
      [Action.ServeDocFS config.DocDir "/"]
  else if relPath = "swagger-initializer.js" then
    [Action.Execute Template.indexJS config]
  else if relPath = "index.css" then
    [Action.Execute Template.indexCSS config]
  else
    if filepath.Ext relPath = ".json" ∨ filepath.Ext relPath = ".yaml"
        ∨ filepath.Ext relPath = ".yml" then
      [Action.ServeDocFS config.DocDir relPath]
    else
      [Action.ServeSwaggerFiles relPath]

/-- The closure returned by `Handler` in `swagger-ui.go`. -/
def handlerFunc (config : SwaggerUIConfig) (flusher : Bool) (r : Request) :
    List (Action SwaggerUIConfig) :=
  if r.Method ≠ MethodGet then
    [Action.Error "Method not allowed" StatusMethodNotAllowed]
  else
    dispatch config (relPathOf config r) ++ (if flusher then [Action.Flush] else [])

def Handler (fsys : fs.FileSystem) (options : List (SwaggerUIConfig → SwaggerUIConfig)) :
    Bool → Request → List (Action SwaggerUIConfig) :=
  handlerFunc (newConfig fsys options)

end doc

/-! ## Sample inputs -/

namespace sample

open swagger_ui_config fs

/-- A directory holding the files `a.json`, `b.yaml`, `c.txt`. -/
def treeABC : Node :=
  Node.dir [("a.json", Node.file), ("b.yaml", Node.file), ("c.txt", Node.file)] false

/-- The documentation directory `docs` holds `a.json`, `b.yaml`, `c.txt`. -/
def docsABC : FileSystem :=
  { lstat := fun p => if p = "docs" then some treeABC else none }

/-- A directory holding one directory named `v1.json` with the file
`readme.txt` in it. -/
def treeDirJson : Node :=
  Node.dir [("v1.json", Node.dir [("readme.txt", Node.file)] false)] false

def docsDirJson : FileSystem :=
  { lstat := fun p => if p = "docs" then some treeDirJson else none }

/-- A directory holding `a.json` and the symlink `shared`. -/
def treeLink : Node :=
  Node.dir [("a.json", Node.file), ("shared", Node.symlink (some "/srv/shared"))] false

/-- The documentation directory `docs` holds `a.json` and a symlink to
`/srv/shared`, which holds `v2/x.yaml`. -/
def docsLink : FileSystem :=
  { lstat := fun p =>
      if p = "docs" then some treeLink
      else if p = "/srv/shared" then
        some (Node.dir [("v2", Node.dir [("x.yaml", Node.file)] false)] false)
      else none }

/-- A directory holding `a.json`, a directory `sec.json` that cannot be
listed, and `z.yaml`. -/
def treeUnreadable : Node :=
  Node.dir [("a.json", Node.file), ("sec.json", Node.dir [] true), ("z.yaml", Node.file)] false

def docsUnreadable : FileSystem :=
  { lstat := fun p => if p = "docs" then some treeUnreadable else none }

/-- A file system without anything in it. -/
def emptyFS : FileSystem :=
  { lstat := fun _ => none }

end sample

/-! ## The exported options as data

`newConfig` takes arbitrary functions; the statements about "options"
range over the functions the package exports, listed here with the
function each stands for. -/

namespace swagger_ui_config

inductive ConfigOption where
  | title (title : String)
  | docDir (dir : String)
  | pathPrefix (pre : String)
  | disableIndexTemplate (disable : Bool)
  | url (url : String)
  | definitionURL (du : DefinitionURL)
  | deepLinking (deepLinking : Bool)
  | syntaxHighlight (syntaxHighlight : Bool)
  | docExpansion (docExpansion : String)
  | showExtensions (IsShown : Bool)
  | domID (domID : String)
  | persistAuthorization (enable : Bool)
  | oauth (config : Option OAuthConfig)
  deriving DecidableEq, Repr

/-- The exported function an option stands for. -/
def ConfigOption.fn : ConfigOption → (SwaggerUIConfig → SwaggerUIConfig)
  | .title t => WithTitle t
  | .docDir d => WithDocDir d
  | .pathPrefix p => WithPathPrefix p
  | .disableIndexTemplate b => WithDisableIndexTemplate b
  | .url u => WithURL u
  | .definitionURL du => WithDefinitionURL du
  | .deepLinking b => WithDeepLinking b
  | .syntaxHighlight b => WithSyntaxHighlight b
  | .docExpansion e => WithDocExpansion e
  | .showExtensions b => WithShowExtensions b
  | .domID i => WithDomID i
  | .persistAuthorization b => WithPersistAuthorization b
  | .oauth o => WithOAuth o

/-- The configuration `newConfig` holds when the loop over the options and
`fixURLName` is done. -/
def afterOptions (configFns : List (SwaggerUIConfig → SwaggerUIConfig)) : SwaggerUIConfig :=
  fixURLName (configFns.foldl (fun c fn => fn c) defaultConfig)

/-- The definition URL entries a list of options supplies, in order. -/
def supplied : List ConfigOption → List DefinitionURL
  | [] => []
  | .url u :: rest => { Name := u, URL := u } :: supplied rest
  | .definitionURL du :: rest => du :: supplied rest
  | _ :: rest => supplied rest

/-- The value given by the last option of the list for which `sel` gives
one, if any. -/
def lastSet {α : Type} (sel : ConfigOption → Option α) : List ConfigOption → Option α
  | [] => none
  | o :: rest =>
    match lastSet sel rest with
    | some v => some v
    | none => sel o

def ConfigOption.title? : ConfigOption → Option String
  | .title t => some t
  | _ => none

def ConfigOption.docDir? : ConfigOption → Option String
  | .docDir d => some d
  | _ => none

def ConfigOption.pathPrefix? : ConfigOption → Option String
  | .pathPrefix p => some p
  | _ => none

def ConfigOption.disableIndexTemplate? : ConfigOption → Option Bool
  | .disableIndexTemplate b => some b
  | _ => none

def ConfigOption.deepLinking? : ConfigOption → Option Bool
  | .deepLinking b => some b
  | _ => none

def ConfigOption.syntaxHighlight? : ConfigOption → Option Bool
  | .syntaxHighlight b => some b
  | _ => none

def ConfigOption.docExpansion? : ConfigOption → Option String
  | .docExpansion e => some e
  | _ => none

def ConfigOption.showExtensions? : ConfigOption → Option Bool
  | .showExtensions b => some b
  | _ => none

def ConfigOption.domID? : ConfigOption → Option String
  | .domID i => some i
  | _ => none

def ConfigOption.persistAuthorization? : ConfigOption → Option Bool
  | .persistAuthorization b => some b
  | _ => none

def ConfigOption.oauth? : ConfigOption → Option (Option OAuthConfig)
  | .oauth o => some o
  | _ => none

end swagger_ui_config

/-! ## Reading a list of actions -/

namespace http

def Action.isExecute {Config : Type} : Action Config → Bool
  | .Execute _ _ => true
  | _ => false

def Action.isServeDocFS {Config : Type} : Action Config → Bool
  | .ServeDocFS _ _ => true
  | _ => false

def Action.isServeSwaggerFiles {Config : Type} : Action Config → Bool
  | .ServeSwaggerFiles _ => true
  | _ => false

/-- The action the deferred flush adds. -/
def flushed {Config : Type} (flusher : Bool) : List (Action Config) :=
  if flusher then [Action.Flush] else []

end http

/-! ## The walk, as the specification words it -/

namespace discovery

open fs swagger_ui_config

/-- The path of an entry relative to the root of its walk. -/
def relOf (names : List String) : String :=
  if names = [] then "." else "/".intercalate names

/-- The recognized definition-file extensions. -/
def isDefinitionFile (p : String) : Bool :=
  filepath.Ext p = ".json" ∨ filepath.Ext p = ".yaml" ∨ filepath.Ext p = ".yml"

/-- The entry kept for a relative path: none unless its extension is
recognized, else the pair of its base name and the path. -/
def entryOf (names : List String) : List DefinitionURL :=
  if isDefinitionFile (relOf names) then
    [{ Name := filepath.Base (relOf names), URL := relOf names }]
  else []

mutual
/-- The entries of a tree in walk order: an entry before what is below it,
the entries of a directory in listing order.  Each comes with the names
leading to it from the root. -/
def visits (names : List String) : Node → List (List String × Node)
  | Node.dir entries readErr =>
    (names, Node.dir entries readErr) :: visitsEntries names entries
  | d => [(names, d)]
def visitsEntries (names : List String) : List (String × Node) → List (List String × Node)
  | [] => []
  | (name, d) :: rest => visits (names ++ [name]) d ++ visitsEntries names rest
end

mutual
/-- The paths a walk reports to a function that never fails: as `visits`,
a directory whose listing failed being reported twice. -/
def reported (names : List String) : Node → List (List String)
  | Node.dir entries readErr =>
    names :: ((if readErr then [names] else []) ++ reportedEntries names entries)
  | _ => [names]
def reportedEntries (names : List String) : List (String × Node) → List (List String)
  | [] => []
  | (name, d) :: rest => reported (names ++ [name]) d ++ reportedEntries names rest
end

/-- What the code adds when the walk stands on a symlink, before the
entry of the symlink itself. -/
def viaSymlink (fsys : FileSystem) : Node → List DefinitionURL
  | Node.symlink (some realDir) =>
    match fsys.lstat realDir with
    | some t => (reported [] t).flatMap entryOf
    | none => []
  | _ => []

/-- Whether the entry is a symlink (`d.Type()&os.ModeSymlink != 0`). -/
def isSymlink : Node → Bool
  | Node.symlink _ => true
  | _ => false

/-- Whether the walk ends at the entry with an error: a symlink that cannot
be read, or a directory that cannot be listed. -/
def fails : Node → Bool
  | Node.symlink none => true
  | Node.dir _ true => true
  | _ => false

/-- Whether a run of entries holds one at which the walk ends. -/
def aborts (l : List (List String × Node)) : Bool :=
  l.any (fun v => fails v.2)

/-- The entries handled before the walk ends: all of them up to the first
failing one; a directory that cannot be listed is still handled itself, a
symlink that cannot be read is not. -/
def stopAt : List (List String × Node) → List (List String × Node)
  | [] => []
  | v :: rest =>
    if fails v.2 then (if isSymlink v.2 then [] else [v])
    else v :: stopAt rest

/-- The entries the walk of the directory `root` would visit, in walk
order; none when `root` cannot be looked up. -/
def visitsAt (fsys : FileSystem) (root : String) : List (List String × Node) :=
  match fsys.lstat root with
  | some t => visits [] t
  | none => []

/-- Whether the entry is a directory (`d.IsDir()`). -/
def isDir : Node → Bool
  | Node.dir _ _ => true
  | _ => false

/-- The URL list as the specification words it: of the entries the walk of
`t` visits, those that are files (not directories), kept by extension. -/
def discoveredFiles (t : Node) : List DefinitionURL :=
  ((visits [] t).filter (fun v => !isDir v.2)).flatMap (fun v => entryOf v.1)

mutual
/-- The tree holds no symlink. -/
def noSymlink : Node → Bool
  | Node.file => true
  | Node.symlink _ => false
  | Node.dir entries _ => noSymlinkEntries entries
def noSymlinkEntries : List (String × Node) → Bool
  | [] => true
  | (_, d) :: rest => noSymlink d && noSymlinkEntries rest
end

end discovery

/-! ## Lemmas on the string functions -/

namespace strings

theorem TrimPrefix_append (p rest : String) : TrimPrefix (p ++ rest) p = rest := by
  have h : HasPrefix (p ++ rest) p = true := by
    simp [HasPrefix, String.data_append]
  simp [TrimPrefix, h, String.data_append]

theorem TrimPrefix_self (p : String) : TrimPrefix p p = "" := by
  have h := TrimPrefix_append p ""
  simpa using h

theorem TrimPrefix_of_not_HasPrefix (s p : String) (h : HasPrefix s p = false) :
    TrimPrefix s p = s := by
  simp [TrimPrefix, h]

end strings

/-! ## The dispatcher -/

section dispatcher

open http

/-- C1: a request whose method is not GET gets the single action
`http.Error(w, "Method not allowed", 405)` from the handler of `handler.go`
and from the handler of `swagger-ui.go`, for every configuration (also the
one `Handler` builds from any options on any file system), every path and
every writer: no template is executed, no file server is called, nothing
is flushed. -/
theorem Handler_method_not_allowed (r : Request) (flusher : Bool)
    (hmethod : r.Method ≠ "GET") :
    (∀ config : swagger_ui_config.SwaggerUIConfig,
        swagger_ui_config.handlerFunc config flusher r = [Action.Error "Method not allowed" 405])
    ∧ (∀ fsys options,
        swagger_ui_config.Handler fsys options flusher r = [Action.Error "Method not allowed" 405])
    ∧ (∀ config : doc.SwaggerUIConfig,
        doc.handlerFunc config flusher r = [Action.Error "Method not allowed" 405])
    ∧ (∀ fsys options,
        doc.Handler fsys options flusher r = [Action.Error "Method not allowed" 405]) := by
  have h : r.Method ≠ MethodGet := hmethod
  refine ⟨?_, ?_, ?_, ?_⟩
  · intro config
    simp [swagger_ui_config.handlerFunc, h, StatusMethodNotAllowed]
  · intro fsys options
    simp [swagger_ui_config.Handler, swagger_ui_config.handlerFunc, h, StatusMethodNotAllowed]
  · intro config
    simp [doc.handlerFunc, h, StatusMethodNotAllowed]
  · intro fsys options
    simp [doc.Handler, doc.handlerFunc, h, StatusMethodNotAllowed]

theorem Handler_method_not_allowed_witness :
    (swagger_ui_config.handlerFunc swagger_ui_config.defaultConfig true ⟨"POST", "/docs/a.json"⟩
        = [Action.Error "Method not allowed" 405])
    ∧ (doc.handlerFunc doc.defaultConfig true ⟨"POST", "/docs/a.json"⟩
        = [Action.Error "Method not allowed" 405]) :=
  ⟨(Handler_method_not_allowed ⟨"POST", "/docs/a.json"⟩ true (by decide)).1 _,
   (Handler_method_not_allowed ⟨"POST", "/docs/a.json"⟩ true (by decide)).2.2.1 _⟩

/-- C2: a GET request whose relative path is one of "", "/", "index",
"index.html", "/index.html" (in particular a request for exactly the
normalized prefix) makes the handler execute the page-shell template on the
configuration and nothing else when templated-index mode is on
(`DisableIndexTemplate` false in `handler.go`, `UseIndexTemplate` true in
`swagger-ui.go`), and otherwise call the documentation-directory server
with the request path rewritten to "/" and nothing else; the deferred
flush follows in both cases. -/
theorem index_request_dispatch (config : swagger_ui_config.SwaggerUIConfig)
    (config' : doc.SwaggerUIConfig) (flusher : Bool) (r : Request)
    (hget : r.Method = "GET")
    (hrel : swagger_ui_config.relPathOf config r ∈ ["", "/", "index", "index.html", "/index.html"]
      ∨ r.EscapedPath = swagger_ui_config.normPrefix config)
    (hrel' : doc.relPathOf config' r ∈ ["", "/", "index", "index.html", "/index.html"]
      ∨ r.EscapedPath = doc.normPrefix config') :
    swagger_ui_config.handlerFunc config flusher r =
        (if config.DisableIndexTemplate = false then [Action.Execute Template.indexHtml config]
          else [Action.ServeDocFS config.DocDir "/"]) ++ flushed flusher
    ∧ doc.handlerFunc config' flusher r =
        (if config'.UseIndexTemplate = true then [Action.Execute Template.indexHtml config']
          else [Action.ServeDocFS config'.DocDir "/"]) ++ flushed flusher := by
  have h : r.Method = MethodGet := hget
  have h1 : swagger_ui_config.relPathOf config r ∈ ["", "/", "index", "index.html", "/index.html"] := by
    rcases hrel with h1 | h1
    · exact h1
    · simp [swagger_ui_config.relPathOf, h1, strings.TrimPrefix_self]
  have h2 : doc.relPathOf config' r ∈ ["", "/", "index", "index.html", "/index.html"] := by
    rcases hrel' with h2 | h2
    · exact h2
    · simp [doc.relPathOf, h2, strings.TrimPrefix_self]
  simp only [List.mem_cons, List.mem_singleton, List.not_mem_nil, or_false] at h1 h2
  constructor
  · simp only [swagger_ui_config.handlerFunc, h, ne_eq, not_true_eq_false, if_false,
      swagger_ui_config.dispatch, h1, if_true, flushed]
    cases config.DisableIndexTemplate <;> simp
  · simp only [doc.handlerFunc, h, ne_eq, not_true_eq_false, if_false,
      doc.dispatch, h2, if_true, flushed]

theorem index_request_dispatch_witness :
    (swagger_ui_config.handlerFunc (swagger_ui_config.WithPathPrefix "/docs" swagger_ui_config.defaultConfig)
        true ⟨"GET", "/docs"⟩
      = [Action.Execute Template.indexHtml
          (swagger_ui_config.WithPathPrefix "/docs" swagger_ui_config.defaultConfig), Action.Flush])
    ∧ (doc.handlerFunc { doc.defaultConfig with PathPrefix := "/docs" } true ⟨"GET", "/docs"⟩
      = [Action.ServeDocFS "docs" "/", Action.Flush]) :=
  index_request_dispatch (swagger_ui_config.WithPathPrefix "/docs" swagger_ui_config.defaultConfig)
    { doc.defaultConfig with PathPrefix := "/docs" } true ⟨"GET", "/docs"⟩ rfl
    (Or.inr (by decide)) (Or.inl (by decide))

/-- C3: a GET request whose relative path is none of the index paths, nor
the initializer-script path, nor the stylesheet path, is served with the
request path rewritten to the relative path: by the documentation-directory
server when the extension of the relative path is .json, .yaml or .yml,
and by the bundled-asset server otherwise.  Exactly one of the two servers
is called and no template is executed.  This holds for the handler of
`handler.go`, where the initializer-script path is
"/swagger-initializer.js", and, on its own condition, for the handler of
`swagger-ui.go`, where it is "swagger-initializer.js". -/
theorem other_request_dispatch (config : swagger_ui_config.SwaggerUIConfig)
    (config' : doc.SwaggerUIConfig) (flusher : Bool) (r : Request)
    (hget : r.Method = "GET") :
    (swagger_ui_config.relPathOf config r ∉
        ["", "/", "index", "index.html", "/index.html", "/swagger-initializer.js", "index.css"] →
      swagger_ui_config.handlerFunc config flusher r =
        (if filepath.Ext (swagger_ui_config.relPathOf config r) ∈ [".json", ".yaml", ".yml"]
          then [Action.ServeDocFS config.DocDir (swagger_ui_config.relPathOf config r)]
          else [Action.ServeSwaggerFiles (swagger_ui_config.relPathOf config r)]) ++ flushed flusher
      ∧ (swagger_ui_config.handlerFunc config flusher r).countP Action.isExecute = 0
      ∧ (swagger_ui_config.handlerFunc config flusher r).countP Action.isServeDocFS
          + (swagger_ui_config.handlerFunc config flusher r).countP Action.isServeSwaggerFiles = 1)
    ∧ (doc.relPathOf config' r ∉
        ["", "/", "index", "index.html", "/index.html", "swagger-initializer.js", "index.css"] →
      doc.handlerFunc config' flusher r =
        (if filepath.Ext (doc.relPathOf config' r) ∈ [".json", ".yaml", ".yml"]
          then [Action.ServeDocFS config'.DocDir (doc.relPathOf config' r)]
          else [Action.ServeSwaggerFiles (doc.relPathOf config' r)]) ++ flushed flusher
      ∧ (doc.handlerFunc config' flusher r).countP Action.isExecute = 0
      ∧ (doc.handlerFunc config' flusher r).countP Action.isServeDocFS
          + (doc.handlerFunc config' flusher r).countP Action.isServeSwaggerFiles = 1) := by
  have h : r.Method = MethodGet := hget
  constructor
  · intro hrel
    simp only [List.mem_cons, List.mem_singleton, List.not_mem_nil, or_false, not_or] at hrel
    obtain ⟨a1, a2, a3, a4, a5, a6, a7⟩ := hrel
    have e1 : swagger_ui_config.handlerFunc config flusher r =
        (if filepath.Ext (swagger_ui_config.relPathOf config r) ∈ [".json", ".yaml", ".yml"]
          then [Action.ServeDocFS config.DocDir (swagger_ui_config.relPathOf config r)]
          else [Action.ServeSwaggerFiles (swagger_ui_config.relPathOf config r)])
          ++ flushed flusher := by
      simp only [swagger_ui_config.handlerFunc, h, ne_eq, not_true_eq_false, if_false,
        swagger_ui_config.dispatch, a1, a2, a3, a4, a5, a6, a7, or_self, List.mem_cons,
        List.mem_singleton, List.not_mem_nil, or_false, flushed]
    refine ⟨e1, ?_, ?_⟩
    · rw [e1]; split <;> cases flusher <;> simp [flushed, Action.isExecute]
    · rw [e1]; split <;> cases flusher <;>
        simp [flushed, Action.isServeDocFS, Action.isServeSwaggerFiles]
  · intro hrel'
    simp only [List.mem_cons, List.mem_singleton, List.not_mem_nil, or_false, not_or] at hrel'
    obtain ⟨b1, b2, b3, b4, b5, b6, b7⟩ := hrel'
    have e2 : doc.handlerFunc config' flusher r =
        (if filepath.Ext (doc.relPathOf config' r) ∈ [".json", ".yaml", ".yml"]
          then [Action.ServeDocFS config'.DocDir (doc.relPathOf config' r)]
          else [Action.ServeSwaggerFiles (doc.relPathOf config' r)]) ++ flushed flusher := by
      simp only [doc.handlerFunc, h, ne_eq, not_true_eq_false, if_false,
        doc.dispatch, b1, b2, b3, b4, b5, b6, b7, or_self, List.mem_cons,
        List.mem_singleton, List.not_mem_nil, or_false, flushed]
    refine ⟨e2, ?_, ?_⟩
    · rw [e2]; split <;> cases flusher <;> simp [flushed, Action.isExecute]
    · rw [e2]; split <;> cases flusher <;>
        simp [flushed, Action.isServeDocFS, Action.isServeSwaggerFiles]

theorem other_request_dispatch_witness :
    (swagger_ui_config.handlerFunc (swagger_ui_config.WithPathPrefix "/docs" swagger_ui_config.defaultConfig)
        false ⟨"GET", "/docs/api/pet.yaml"⟩
      = [Action.ServeDocFS "docs" "/api/pet.yaml"])
    ∧ (swagger_ui_config.handlerFunc swagger_ui_config.defaultConfig
        true ⟨"GET", "swagger-initializer.js"⟩
      = [Action.ServeSwaggerFiles "swagger-initializer.js", Action.Flush])
    ∧ (doc.handlerFunc { doc.defaultConfig with PathPrefix := "/docs" } false
        ⟨"GET", "/docs/api/pet.yaml"⟩
      = [Action.ServeDocFS "docs" "/api/pet.yaml"])
    ∧ (doc.handlerFunc { doc.defaultConfig with PathPrefix := "/docs" } true
        ⟨"GET", "/docs/swagger-initializer.js"⟩
      = [Action.ServeSwaggerFiles "/swagger-initializer.js", Action.Flush]) :=
  ⟨((other_request_dispatch
      (swagger_ui_config.WithPathPrefix "/docs" swagger_ui_config.defaultConfig)
      doc.defaultConfig false ⟨"GET", "/docs/api/pet.yaml"⟩ rfl).1 (by decide)).1,
   ((other_request_dispatch swagger_ui_config.defaultConfig
      doc.defaultConfig true ⟨"GET", "swagger-initializer.js"⟩ rfl).1 (by decide)).1,
   ((other_request_dispatch swagger_ui_config.defaultConfig
      { doc.defaultConfig with PathPrefix := "/docs" } false
      ⟨"GET", "/docs/api/pet.yaml"⟩ rfl).2 (by decide)).1,
   ((other_request_dispatch swagger_ui_config.defaultConfig
      { doc.defaultConfig with PathPrefix := "/docs" } true
      ⟨"GET", "/docs/swagger-initializer.js"⟩ rfl).2 (by decide)).1⟩

/-- C8: on a GET request, the relative path "/swagger-initializer.js"
(`handler.go`; "swagger-initializer.js" in `swagger-ui.go`) makes the
handler execute the initializer-script template on the configuration, and
the relative path "index.css" makes it execute the stylesheet template; in
both cases nothing else happens but the deferred flush, and no file server
is called, although the extensions of these paths (.js and .css) are not
definition-file extensions. -/
theorem script_and_stylesheet_dispatch (config : swagger_ui_config.SwaggerUIConfig)
    (config' : doc.SwaggerUIConfig) (flusher : Bool) (r : Request)
    (hget : r.Method = "GET") :
    (swagger_ui_config.relPathOf config r = "/swagger-initializer.js" →
      swagger_ui_config.handlerFunc config flusher r
        = [Action.Execute Template.indexJS config] ++ flushed flusher)
    ∧ (swagger_ui_config.relPathOf config r = "index.css" →
      swagger_ui_config.handlerFunc config flusher r
        = [Action.Execute Template.indexCSS config] ++ flushed flusher)
    ∧ (doc.relPathOf config' r = "swagger-initializer.js" →
      doc.handlerFunc config' flusher r
        = [Action.Execute Template.indexJS config'] ++ flushed flusher)
    ∧ (doc.relPathOf config' r = "index.css" →
      doc.handlerFunc config' flusher r
        = [Action.Execute Template.indexCSS config'] ++ flushed flusher)
    ∧ filepath.Ext "/swagger-initializer.js" = ".js"
    ∧ filepath.Ext "swagger-initializer.js" = ".js"
    ∧ filepath.Ext "index.css" = ".css" := by
  have h : r.Method = MethodGet := hget
  refine ⟨?_, ?_, ?_, ?_, by decide, by decide, by decide⟩
  · intro e
    simp only [swagger_ui_config.handlerFunc, h, ne_eq, not_true_eq_false, if_false,
      swagger_ui_config.dispatch, e, flushed]
    simp
  · intro e
    simp only [swagger_ui_config.handlerFunc, h, ne_eq, not_true_eq_false, if_false,
      swagger_ui_config.dispatch, e, flushed]
    simp
  · intro e
    simp only [doc.handlerFunc, h, ne_eq, not_true_eq_false, if_false,
      doc.dispatch, e, flushed]
    simp
  · intro e
    simp only [doc.handlerFunc, h, ne_eq, not_true_eq_false, if_false,
      doc.dispatch, e, flushed]
    simp

theorem script_and_stylesheet_dispatch_witness :
    (swagger_ui_config.handlerFunc (swagger_ui_config.WithPathPrefix "/docs" swagger_ui_config.defaultConfig)
        true ⟨"GET", "/docs/swagger-initializer.js"⟩
      = [Action.Execute Template.indexJS
          (swagger_ui_config.WithPathPrefix "/docs" swagger_ui_config.defaultConfig), Action.Flush])
    ∧ (swagger_ui_config.handlerFunc (swagger_ui_config.WithPathPrefix "/docs/" swagger_ui_config.defaultConfig)
        true ⟨"GET", "/docs/index.css"⟩
      = [Action.Execute Template.indexCSS
          (swagger_ui_config.WithPathPrefix "/docs/" swagger_ui_config.defaultConfig), Action.Flush])
    ∧ (doc.handlerFunc { doc.defaultConfig with PathPrefix := "/docs/" } true
        ⟨"GET", "/docs/swagger-initializer.js"⟩
      = [Action.Execute Template.indexJS { doc.defaultConfig with PathPrefix := "/docs/" },
          Action.Flush])
    ∧ (doc.handlerFunc { doc.defaultConfig with PathPrefix := "/docs/" } true
        ⟨"GET", "/docs/index.css"⟩
      = [Action.Execute Template.indexCSS { doc.defaultConfig with PathPrefix := "/docs/" },
          Action.Flush]) :=
  ⟨(script_and_stylesheet_dispatch
      (swagger_ui_config.WithPathPrefix "/docs" swagger_ui_config.defaultConfig)
      doc.defaultConfig true ⟨"GET", "/docs/swagger-initializer.js"⟩ rfl).1 (by decide),
   (script_and_stylesheet_dispatch
      (swagger_ui_config.WithPathPrefix "/docs/" swagger_ui_config.defaultConfig)
      doc.defaultConfig true ⟨"GET", "/docs/index.css"⟩ rfl).2.1 (by decide),
   (script_and_stylesheet_dispatch swagger_ui_config.defaultConfig
      { doc.defaultConfig with PathPrefix := "/docs/" } true
      ⟨"GET", "/docs/swagger-initializer.js"⟩ rfl).2.2.1 (by decide),
   (script_and_stylesheet_dispatch swagger_ui_config.defaultConfig
      { doc.defaultConfig with PathPrefix := "/docs/" } true
      ⟨"GET", "/docs/index.css"⟩ rfl).2.2.2.1 (by decide)⟩

/-- The relative path of a request for the normalized prefix followed by
`rest` is `rest`. -/
theorem relPathOf_append (config : swagger_ui_config.SwaggerUIConfig) (m rest : String) :
    swagger_ui_config.relPathOf config ⟨m, swagger_ui_config.normPrefix config ++ rest⟩ = rest := by
  simp [swagger_ui_config.relPathOf, strings.TrimPrefix_append]

/-- A request path that does not start with the normalized prefix is its
own relative path. -/
theorem relPathOf_of_not_HasPrefix (config : swagger_ui_config.SwaggerUIConfig) (r : Request)
    (h : strings.HasPrefix r.EscapedPath (swagger_ui_config.normPrefix config) = false) :
    swagger_ui_config.relPathOf config r = r.EscapedPath := by
  simp [swagger_ui_config.relPathOf, strings.TrimPrefix_of_not_HasPrefix _ _ h]

/-- The normalized prefix always begins with a slash. -/
theorem normPrefix_head (config : swagger_ui_config.SwaggerUIConfig) :
    (swagger_ui_config.normPrefix config).data.head? = some '/' := by
  simp [swagger_ui_config.normPrefix, String.data_append]

/-- C7: with `PathPrefix` "//api" the prefix the dispatcher strips is
"//api": `strings.TrimPrefix` removes one slash, not all, and the prefix
begins with two slashes.  A GET for "/api/index.html" is then dispatched on
the whole path and reaches the bundled-asset server, in `handler.go` and in
`swagger-ui.go` alike. -/
theorem normPrefix_double_slash :
    swagger_ui_config.normPrefix (swagger_ui_config.WithPathPrefix "//api" swagger_ui_config.defaultConfig)
        = "//api"
    ∧ swagger_ui_config.handlerFunc
        (swagger_ui_config.WithPathPrefix "//api" swagger_ui_config.defaultConfig) false
        ⟨"GET", "/api/index.html"⟩ = [Action.ServeSwaggerFiles "/api/index.html"]
    ∧ doc.normPrefix { doc.defaultConfig with PathPrefix := "//api" } = "//api"
    ∧ doc.handlerFunc { doc.defaultConfig with PathPrefix := "//api" } false
        ⟨"GET", "/api/index.html"⟩ = [Action.ServeSwaggerFiles "/api/index.html"] := by
  decide

/-- C10: the dispatcher of `handler.go` does not treat a leading slash
alike for the three names.  For every configuration the relative paths
"index.html" and "/index.html" reach the same bucket, but
"/swagger-initializer.js" is rendered from the template while
"swagger-initializer.js" goes to the bundled-asset server, and "index.css"
is rendered from the template while "/index.css" goes to the bundled-asset
server.  So under the prefix "/docs" the stylesheet at "/docs/index.css" is
not the template, and under "/docs/" the script at
"/docs/swagger-initializer.js" is not the template.  The dispatcher of
`swagger-ui.go` renders both "swagger-initializer.js" and "index.css",
written the same way. -/
theorem dispatch_leading_slash_differs :
    (∀ config : swagger_ui_config.SwaggerUIConfig,
      swagger_ui_config.dispatch config "index.html" = swagger_ui_config.dispatch config "/index.html"
      ∧ swagger_ui_config.dispatch config "/swagger-initializer.js"
          = [Action.Execute Template.indexJS config]
      ∧ swagger_ui_config.dispatch config "swagger-initializer.js"
          = [Action.ServeSwaggerFiles "swagger-initializer.js"]
      ∧ swagger_ui_config.dispatch config "index.css"
          = [Action.Execute Template.indexCSS config]
      ∧ swagger_ui_config.dispatch config "/index.css"
          = [Action.ServeSwaggerFiles "/index.css"])
    ∧ swagger_ui_config.handlerFunc
        (swagger_ui_config.WithPathPrefix "/docs" swagger_ui_config.defaultConfig) false
        ⟨"GET", "/docs/index.css"⟩ = [Action.ServeSwaggerFiles "/index.css"]
    ∧ swagger_ui_config.handlerFunc
        (swagger_ui_config.WithPathPrefix "/docs/" swagger_ui_config.defaultConfig) false
        ⟨"GET", "/docs/swagger-initializer.js"⟩
          = [Action.ServeSwaggerFiles "swagger-initializer.js"]
    ∧ (∀ config : doc.SwaggerUIConfig,
      doc.dispatch config "swagger-initializer.js" = [Action.Execute Template.indexJS config]
      ∧ doc.dispatch config "index.css" = [Action.Execute Template.indexCSS config]
      ∧ doc.dispatch config "/swagger-initializer.js"
          = [Action.ServeSwaggerFiles "/swagger-initializer.js"]
      ∧ doc.dispatch config "/index.css" = [Action.ServeSwaggerFiles "/index.css"]) := by
  have e1 : filepath.Ext "swagger-initializer.js" = ".js" := by decide
  have e2 : filepath.Ext "/index.css" = ".css" := by decide
  have e3 : filepath.Ext "/swagger-initializer.js" = ".js" := by decide
  refine ⟨?_, by decide, by decide, ?_⟩
  · intro config
    refine ⟨?_, ?_, ?_, ?_, ?_⟩
    · simp [swagger_ui_config.dispatch]
    · simp [swagger_ui_config.dispatch]
    · simp [swagger_ui_config.dispatch, e1]
    · simp [swagger_ui_config.dispatch]
    · simp [swagger_ui_config.dispatch, e2]
  · intro config
    refine ⟨?_, ?_, ?_, ?_⟩
    · simp [doc.dispatch]
    · simp [doc.dispatch]
    · simp [doc.dispatch, e3]
    · simp [doc.dispatch, e2]

end dispatcher

/-! ## The configuration builder -/

section builder

open swagger_ui_config

/-- The options applied in order, as `newConfig` does before `fixURLName`. -/
theorem foldl_field {α : Type} (f : SwaggerUIConfig → α) (sel : ConfigOption → Option α)
    (hsel : ∀ o c, f (ConfigOption.fn o c) = (sel o).getD (f c))
    (opts : List ConfigOption) (c : SwaggerUIConfig) :
    f ((opts.map ConfigOption.fn).foldl (fun c fn => fn c) c) = (lastSet sel opts).getD (f c) := by
  induction opts generalizing c with
  | nil => rfl
  | cons o rest ih =>
    simp only [List.map_cons, List.foldl_cons, lastSet]
    rw [ih, hsel]
    cases lastSet sel rest <;> simp

theorem foldl_URLs (opts : List ConfigOption) (c : SwaggerUIConfig) :
    ((opts.map ConfigOption.fn).foldl (fun c fn => fn c) c).URLs = c.URLs ++ supplied opts := by
  induction opts generalizing c with
  | nil => simp [supplied]
  | cons o rest ih =>
    simp only [List.map_cons, List.foldl_cons]
    rw [ih]
    cases o <;> simp [supplied, ConfigOption.fn, WithTitle, WithDocDir, WithPathPrefix,
      WithDisableIndexTemplate, WithURL, WithDefinitionURL, WithDeepLinking,
      WithSyntaxHighlight, WithDocExpansion, WithShowExtensions, WithDomID,
      WithPersistAuthorization, WithOAuth]

theorem afterOptions_URLs (opts : List ConfigOption) :
    (afterOptions (opts.map ConfigOption.fn)).URLs = (supplied opts).map fixName := by
  simp [afterOptions, fixURLName, foldl_URLs, defaultConfig]

theorem newConfig_of_URLs_ne_nil (fsys : fs.FileSystem)
    (configFns : List (SwaggerUIConfig → SwaggerUIConfig))
    (h : (afterOptions configFns).URLs ≠ []) :
    newConfig fsys configFns = afterOptions configFns := by
  have h' : ¬ (afterOptions configFns).URLs.length = 0 := by
    simpa [List.length_eq_zero] using h
  unfold newConfig
  simp only [List.foldl_append, List.foldl_cons, List.foldl_nil]
  exact if_neg h'

theorem newConfig_of_URLs_eq_nil (fsys : fs.FileSystem)
    (configFns : List (SwaggerUIConfig → SwaggerUIConfig))
    (h : (afterOptions configFns).URLs = []) :
    newConfig fsys configFns =
      { afterOptions configFns with
        URLs := (filepath.WalkDir fsys (afterOptions configFns).DocDir
          (walkFn fsys (afterOptions configFns).DocDir) []).1 } := by
  have h' : (afterOptions configFns).URLs.length = 0 := by simp [h]
  unfold newConfig
  simp only [List.foldl_append, List.foldl_cons, List.foldl_nil]
  simp only [afterOptions] at h h' ⊢
  rw [if_pos h', h]

theorem newConfig_eq_with (fsys : fs.FileSystem)
    (configFns : List (SwaggerUIConfig → SwaggerUIConfig)) :
    ∃ urls, newConfig fsys configFns = { afterOptions configFns with URLs := urls } := by
  by_cases h : (afterOptions configFns).URLs = []
  · exact ⟨_, newConfig_of_URLs_eq_nil fsys configFns h⟩
  · exact ⟨(afterOptions configFns).URLs, newConfig_of_URLs_ne_nil fsys configFns h⟩

theorem afterOptions_field {α : Type} (f : SwaggerUIConfig → α) (sel : ConfigOption → Option α)
    (hfix : ∀ c, f (fixURLName c) = f c)
    (hsel : ∀ o c, f (ConfigOption.fn o c) = (sel o).getD (f c))
    (opts : List ConfigOption) :
    f (afterOptions (opts.map ConfigOption.fn)) = (lastSet sel opts).getD (f defaultConfig) := by
  unfold afterOptions
  rw [hfix, foldl_field f sel hsel]

/-- C9: `newConfig` without options returns the defaults: empty `Title`,
`DocDir` "docs", `DocExpansion` "list", `ShowExtensions` true, `DomID`
"swagger-ui", `DeepLinking` true, `PersistAuthorization` false,
`SyntaxHighlight` true, no `OAuth`, and `DisableIndexTemplate` false
(templated-index mode on), on every file system.  For every list of
exported options, every scalar field of the returned configuration is the
value given by the last option of the list that sets the field, and the
default when no option sets it. -/
theorem newConfig_defaults_and_last_option (fsys : fs.FileSystem) (opts : List ConfigOption) :
    ((newConfig fsys []).Title = ""
      ∧ (newConfig fsys []).DocDir = "docs"
      ∧ (newConfig fsys []).DocExpansion = "list"
      ∧ (newConfig fsys []).ShowExtensions = true
      ∧ (newConfig fsys []).DomID = "swagger-ui"
      ∧ (newConfig fsys []).DeepLinking = true
      ∧ (newConfig fsys []).PersistAuthorization = false
      ∧ (newConfig fsys []).SyntaxHighlight = true
      ∧ (newConfig fsys []).OAuth = none
      ∧ (newConfig fsys []).DisableIndexTemplate = false
      ∧ (newConfig fsys []).PathPrefix = "")
    ∧ (newConfig fsys (opts.map ConfigOption.fn)).Title
        = (lastSet ConfigOption.title? opts).getD ""
    ∧ (newConfig fsys (opts.map ConfigOption.fn)).DocDir
        = (lastSet ConfigOption.docDir? opts).getD "docs"
    ∧ (newConfig fsys (opts.map ConfigOption.fn)).PathPrefix
        = (lastSet ConfigOption.pathPrefix? opts).getD ""
    ∧ (newConfig fsys (opts.map ConfigOption.fn)).DisableIndexTemplate
        = (lastSet ConfigOption.disableIndexTemplate? opts).getD false
    ∧ (newConfig fsys (opts.map ConfigOption.fn)).DocExpansion
        = (lastSet ConfigOption.docExpansion? opts).getD "list"
    ∧ (newConfig fsys (opts.map ConfigOption.fn)).ShowExtensions
        = (lastSet ConfigOption.showExtensions? opts).getD true
    ∧ (newConfig fsys (opts.map ConfigOption.fn)).DomID
        = (lastSet ConfigOption.domID? opts).getD "swagger-ui"
    ∧ (newConfig fsys (opts.map ConfigOption.fn)).DeepLinking
        = (lastSet ConfigOption.deepLinking? opts).getD true
    ∧ (newConfig fsys (opts.map ConfigOption.fn)).PersistAuthorization
        = (lastSet ConfigOption.persistAuthorization? opts).getD false
    ∧ (newConfig fsys (opts.map ConfigOption.fn)).SyntaxHighlight
        = (lastSet ConfigOption.syntaxHighlight? opts).getD true
    ∧ (newConfig fsys (opts.map ConfigOption.fn)).OAuth
        = (lastSet ConfigOption.oauth? opts).getD none := by
  constructor
  · obtain ⟨urls, e⟩ := newConfig_eq_with fsys []
    rw [e]
    simp [afterOptions, fixURLName, defaultConfig]
  · obtain ⟨urls, e⟩ := newConfig_eq_with fsys (opts.map ConfigOption.fn)
    rw [e]
    refine ⟨?_, ?_, ?_, ?_, ?_, ?_, ?_, ?_, ?_, ?_, ?_⟩
    · exact afterOptions_field (fun c => c.Title) ConfigOption.title? (fun _ => rfl)
        (fun o c => by cases o <;> rfl) opts
    · exact afterOptions_field (fun c => c.DocDir) ConfigOption.docDir? (fun _ => rfl)
        (fun o c => by cases o <;> rfl) opts
    · exact afterOptions_field (fun c => c.PathPrefix) ConfigOption.pathPrefix? (fun _ => rfl)
        (fun o c => by cases o <;> rfl) opts
    · exact afterOptions_field (fun c => c.DisableIndexTemplate)
        ConfigOption.disableIndexTemplate? (fun _ => rfl) (fun o c => by cases o <;> rfl) opts
    · exact afterOptions_field (fun c => c.DocExpansion) ConfigOption.docExpansion?
        (fun _ => rfl) (fun o c => by cases o <;> rfl) opts
    · exact afterOptions_field (fun c => c.ShowExtensions) ConfigOption.showExtensions?
        (fun _ => rfl) (fun o c => by cases o <;> rfl) opts
    · exact afterOptions_field (fun c => c.DomID) ConfigOption.domID? (fun _ => rfl)
        (fun o c => by cases o <;> rfl) opts
    · exact afterOptions_field (fun c => c.DeepLinking) ConfigOption.deepLinking?
        (fun _ => rfl) (fun o c => by cases o <;> rfl) opts
    · exact afterOptions_field (fun c => c.PersistAuthorization)
        ConfigOption.persistAuthorization? (fun _ => rfl) (fun o c => by cases o <;> rfl) opts
    · exact afterOptions_field (fun c => c.SyntaxHighlight) ConfigOption.syntaxHighlight?
        (fun _ => rfl) (fun o c => by cases o <;> rfl) opts
    · exact afterOptions_field (fun c => c.OAuth) ConfigOption.oauth? (fun _ => rfl)
        (fun o c => by cases o <;> rfl) opts

theorem fixName_spec (u : DefinitionURL) :
    (fixName u).URL = u.URL ∧ (u.Name = "" → (fixName u).Name = u.URL)
      ∧ (u.Name ≠ "" → (fixName u).Name = u.Name) := by
  unfold fixName
  by_cases h : u.Name = "" <;> simp [h]

/-- C4: when the options supply at least one definition URL, the URL list
of the configuration `newConfig` returns matches the supplied entries one
for one and in order: every entry keeps its URL, an entry supplied with an
empty `Name` has `Name` equal to its URL, and an entry supplied with a
non-empty `Name` keeps it.  This is so on every file system. -/
theorem newConfig_fills_empty_names (fsys : fs.FileSystem) (opts : List ConfigOption)
    (hsupplied : supplied opts ≠ []) :
    List.Forall₂
      (fun (given got : DefinitionURL) =>
        got.URL = given.URL ∧ (given.Name = "" → got.Name = given.URL)
          ∧ (given.Name ≠ "" → got.Name = given.Name))
      (supplied opts) (newConfig fsys (opts.map ConfigOption.fn)).URLs := by
  have hne : (afterOptions (opts.map ConfigOption.fn)).URLs ≠ [] := by
    rw [afterOptions_URLs]
    simpa using hsupplied
  rw [newConfig_of_URLs_ne_nil fsys _ hne, afterOptions_URLs, List.forall₂_map_right_iff]
  exact List.forall₂_same.mpr (fun u _ => fixName_spec u)

theorem newConfig_fills_empty_names_witness :
    List.Forall₂
      (fun (given got : DefinitionURL) =>
        got.URL = given.URL ∧ (given.Name = "" → got.Name = given.URL)
          ∧ (given.Name ≠ "" → got.Name = given.Name))
      [⟨"", "pet.json"⟩, ⟨"store.yaml", "store.yaml"⟩, ⟨"Users", "users.yml"⟩]
      (newConfig sample.docsABC
        [WithDefinitionURL ⟨"", "pet.json"⟩, WithTitle "API", WithURL "store.yaml",
          WithDefinitionURL ⟨"Users", "users.yml"⟩]).URLs :=
  newConfig_fills_empty_names sample.docsABC
    [.definitionURL ⟨"", "pet.json"⟩, .title "API", .url "store.yaml",
      .definitionURL ⟨"Users", "users.yml"⟩] (by decide)

/-- C6: when the options supply at least one definition URL, `newConfig`
returns the configuration as it stands after the options and `fixURLName`,
the walk of the documentation directory adding nothing: its URL list is the
supplied entries in the order of the options, empty names filled in, and
the whole result is the same on any two file systems. -/
theorem newConfig_skips_walk (fsys fsys' : fs.FileSystem) (opts : List ConfigOption)
    (hsupplied : supplied opts ≠ []) :
    newConfig fsys (opts.map ConfigOption.fn) = afterOptions (opts.map ConfigOption.fn)
    ∧ (newConfig fsys (opts.map ConfigOption.fn)).URLs = (supplied opts).map fixName
    ∧ newConfig fsys (opts.map ConfigOption.fn) = newConfig fsys' (opts.map ConfigOption.fn) := by
  have hne : (afterOptions (opts.map ConfigOption.fn)).URLs ≠ [] := by
    rw [afterOptions_URLs]
    simpa using hsupplied
  refine ⟨newConfig_of_URLs_ne_nil fsys _ hne, ?_, ?_⟩
  · rw [newConfig_of_URLs_ne_nil fsys _ hne, afterOptions_URLs]
  · rw [newConfig_of_URLs_ne_nil fsys _ hne, newConfig_of_URLs_ne_nil fsys' _ hne]

theorem newConfig_skips_walk_witness :
    (newConfig sample.docsABC [WithURL "z.json", WithDefinitionURL ⟨"", "pet.json"⟩]).URLs
        = [⟨"z.json", "z.json"⟩, ⟨"pet.json", "pet.json"⟩]
    ∧ newConfig sample.docsABC [WithURL "z.json", WithDefinitionURL ⟨"", "pet.json"⟩]
        = newConfig sample.emptyFS [WithURL "z.json", WithDefinitionURL ⟨"", "pet.json"⟩] :=
  have h := newConfig_skips_walk sample.docsABC sample.emptyFS
    [.url "z.json", .definitionURL ⟨"", "pet.json"⟩] (by decide)
  ⟨h.2.1, h.2.2⟩

end builder

/-! ## The walk of the documentation directory -/

section walk

open swagger_ui_config discovery fs

theorem Ext_append_slash (s : String) : filepath.Ext (s ++ "/") = "" := by
  simp [filepath.Ext, String.data_append, filepath.extScan]

theorem addURLs_eq (dir : String) (names : List String) (urls : List DefinitionURL) :
    addURLs dir ⟨dir, names⟩ urls = (urls ++ entryOf names, none) := by
  have hdot : filepath.Ext "." = "." := by decide
  have hnil : filepath.Ext "" = "" := by decide
  by_cases hn : names = []
  · subst hn
    simp [addURLs, filepath.Rel, entryOf, isDefinitionFile, relOf, hdot]
  · by_cases he : "/".intercalate names = ""
    · have hs : filepath.Ext (dir ++ "/") = "" := Ext_append_slash dir
      simp [addURLs, filepath.Rel, entryOf, isDefinitionFile, relOf, hn, he,
        filepath.WalkPath.str, hs, hnil]
    · by_cases hx : filepath.Ext ("/".intercalate names) = ".json"
          ∨ filepath.Ext ("/".intercalate names) = ".yaml"
          ∨ filepath.Ext ("/".intercalate names) = ".yml"
      · simp [addURLs, filepath.Rel, entryOf, isDefinitionFile, relOf, hn, he, hx]
      · simp [addURLs, filepath.Rel, entryOf, isDefinitionFile, relOf, hn, he, hx]

theorem innerWalkFn_eq (realDir : String) (names : List String) (d : Option Node)
    (err : Option Err) (urls : List DefinitionURL) :
    innerWalkFn realDir ⟨realDir, names⟩ d err urls = (urls ++ entryOf names, none) := by
  simp [innerWalkFn, addURLs_eq]

mutual
theorem walkDir_inner (realDir : String) :
    ∀ (d : Node) (names : List String) (urls : List DefinitionURL),
      filepath.walkDir (innerWalkFn realDir) realDir names d urls
        = (urls ++ (reported names d).flatMap entryOf, none)
  | Node.file, names, urls => by
    simp [filepath.walkDir, innerWalkFn_eq, reported]
  | Node.symlink t, names, urls => by
    simp [filepath.walkDir, innerWalkFn_eq, reported]
  | Node.dir entries readErr, names, urls => by
    have ih := walkEntries_inner realDir entries names
    cases readErr <;>
      simp [filepath.walkDir, innerWalkFn_eq, reported, ih, List.flatMap_append,
        List.flatMap_cons]
theorem walkEntries_inner (realDir : String) :
    ∀ (entries : List (String × Node)) (names : List String) (urls : List DefinitionURL),
      filepath.walkEntries (innerWalkFn realDir) realDir names entries urls
        = (urls ++ (reportedEntries names entries).flatMap entryOf, none)
  | [], names, urls => by
    simp [filepath.walkEntries, reportedEntries]
  | (name, d) :: rest, names, urls => by
    have ih1 := walkDir_inner realDir d (names ++ [name])
    have ih2 := walkEntries_inner realDir rest names
    simp [filepath.walkEntries, reportedEntries, ih1, ih2, List.flatMap_append]
end

theorem entryOf_nil : entryOf [] = [] := by decide

theorem WalkDir_inner (fsys : FileSystem) (realDir : String) (urls : List DefinitionURL) :
    (filepath.WalkDir fsys realDir (innerWalkFn realDir) urls).1
      = urls ++ viaSymlink fsys (Node.symlink (some realDir)) := by
  unfold filepath.WalkDir viaSymlink
  cases h : fsys.lstat realDir with
  | none => simp [h, innerWalkFn_eq, entryOf_nil]
  | some t => simp [h, walkDir_inner]

theorem walkFn_ok (fsys : FileSystem) (docDir : String) (names : List String) (d : Node)
    (urls : List DefinitionURL) (hd : d ≠ Node.symlink none) :
    walkFn fsys docDir ⟨docDir, names⟩ (some d) none urls
      = (urls ++ (viaSymlink fsys d ++ entryOf names), none) := by
  cases d with
  | file => simp [walkFn, addURLs_eq, viaSymlink]
  | dir entries readErr => simp [walkFn, addURLs_eq, viaSymlink]
  | symlink target =>
    cases target with
    | none => exact absurd rfl hd
    | some realDir =>
      simp only [walkFn]
      rw [WalkDir_inner, addURLs_eq, List.append_assoc]

theorem walkFn_readlink (fsys : FileSystem) (docDir : String) (p : filepath.WalkPath)
    (urls : List DefinitionURL) :
    walkFn fsys docDir p (some (Node.symlink none)) none urls = (urls, some Err.readlink) := by
  simp [walkFn]

theorem walkFn_err (fsys : FileSystem) (docDir : String) (p : filepath.WalkPath)
    (d : Option Node) (e : Err) (urls : List DefinitionURL) :
    walkFn fsys docDir p d (some e) urls = (urls, some e) := by
  simp [walkFn]

theorem aborts_nil : aborts [] = false := rfl

theorem aborts_cons (v : List String × Node) (rest : List (List String × Node)) :
    aborts (v :: rest) = (fails v.2 || aborts rest) := rfl

theorem stopAt_append_of_aborts (l1 l2 : List (List String × Node)) (h : aborts l1 = true) :
    stopAt (l1 ++ l2) = stopAt l1 := by
  induction l1 with
  | nil => rw [aborts_nil] at h; exact absurd h (by decide)
  | cons v rest ih =>
    by_cases hv : fails v.2 = true
    · simp [stopAt, hv]
    · have hr : aborts rest = true := by
        rw [aborts_cons] at h
        cases hf : fails v.2
        · rw [hf] at h; simpa using h
        · exact absurd hf hv
      simp [stopAt, hv, ih hr]

theorem stopAt_append_of_not_aborts (l1 l2 : List (List String × Node))
    (h : aborts l1 = false) : stopAt (l1 ++ l2) = l1 ++ stopAt l2 := by
  induction l1 with
  | nil => rfl
  | cons v rest ih =>
    have h' : fails v.2 = false ∧ aborts rest = false := by
      rw [aborts_cons] at h
      exact Bool.or_eq_false_iff.mp h
    simp [stopAt, h'.1, ih h'.2]

theorem stopAt_of_not_aborts (l : List (List String × Node)) (h : aborts l = false) :
    stopAt l = l := by
  have e := stopAt_append_of_not_aborts l [] h
  simpa [stopAt] using e

theorem mem_of_mem_stopAt (l : List (List String × Node)) (v : List String × Node)
    (h : v ∈ stopAt l) : v ∈ l := by
  induction l with
  | nil => simp [stopAt] at h
  | cons w rest ih =>
    by_cases hw : fails w.2 = true
    · by_cases hs : isSymlink w.2 = true
      · simp [stopAt, hw, hs] at h
      · simp [stopAt, hw, hs] at h
        simp [h]
    · simp only [stopAt, hw, Bool.false_eq_true, if_false, List.mem_cons] at h
      rcases h with h | h
      · simp [h]
      · exact List.mem_cons_of_mem _ (ih h)

theorem aborts_append (l1 l2 : List (List String × Node)) :
    aborts (l1 ++ l2) = (aborts l1 || aborts l2) := by
  induction l1 with
  | nil => rfl
  | cons v rest ih =>
    rw [List.cons_append, aborts_cons, aborts_cons, ih, Bool.or_assoc]

mutual
theorem walkDir_outer (fsys : FileSystem) (docDir : String) :
    ∀ (d : Node) (names : List String) (urls : List DefinitionURL),
      ∃ e, filepath.walkDir (walkFn fsys docDir) docDir names d urls
          = (urls ++ (stopAt (visits names d)).flatMap
              (fun v => viaSymlink fsys v.2 ++ entryOf v.1), e)
        ∧ e.isSome = aborts (visits names d)
  | Node.file, names, urls => by
    refine ⟨none, ?_, ?_⟩
    · simp [filepath.walkDir, walkFn_ok, visits, stopAt, fails]
    · simp [visits, aborts, fails]
  | Node.symlink none, names, urls => by
    refine ⟨some Err.readlink, ?_, ?_⟩
    · simp [filepath.walkDir, walkFn_readlink, visits, stopAt, fails, isSymlink]
    · simp [visits, aborts, fails]
  | Node.symlink (some realDir), names, urls => by
    refine ⟨none, ?_, ?_⟩
    · simp [filepath.walkDir, walkFn_ok, visits, stopAt, fails]
    · simp [visits, aborts, fails]
  | Node.dir entries true, names, urls => by
    refine ⟨some Err.readDir, ?_, ?_⟩
    · simp [filepath.walkDir, walkFn_ok, walkFn_err, visits, stopAt, fails, isSymlink]
    · simp [visits, aborts, fails]
  | Node.dir entries false, names, urls => by
    obtain ⟨e, h1, h2⟩ := walkEntries_outer fsys docDir entries names
      (urls ++ (viaSymlink fsys (Node.dir entries false) ++ entryOf names))
    refine ⟨e, ?_, ?_⟩
    · simp [filepath.walkDir, walkFn_ok, visits, stopAt, fails, h1, List.flatMap_cons]
    · simpa [visits, aborts, fails] using h2
theorem walkEntries_outer (fsys : FileSystem) (docDir : String) :
    ∀ (entries : List (String × Node)) (names : List String) (urls : List DefinitionURL),
      ∃ e, filepath.walkEntries (walkFn fsys docDir) docDir names entries urls
          = (urls ++ (stopAt (visitsEntries names entries)).flatMap
              (fun v => viaSymlink fsys v.2 ++ entryOf v.1), e)
        ∧ e.isSome = aborts (visitsEntries names entries)
  | [], names, urls => by
    refine ⟨none, ?_, ?_⟩
    · simp [filepath.walkEntries, visitsEntries, stopAt]
    · simp [visitsEntries, aborts]
  | (name, d) :: rest, names, urls => by
    obtain ⟨e1, h1, h2⟩ := walkDir_outer fsys docDir d (names ++ [name]) urls
    cases e1 with
    | some err =>
      have ha : aborts (visits (names ++ [name]) d) = true := by simpa using h2.symm
      refine ⟨some err, ?_, ?_⟩
      · simp [filepath.walkEntries, visitsEntries, h1, stopAt_append_of_aborts _ _ ha]
      · simp [visitsEntries, aborts_append, ha]
    | none =>
      have ha : aborts (visits (names ++ [name]) d) = false := by simpa using h2.symm
      rw [stopAt_of_not_aborts _ ha] at h1
      obtain ⟨e2, h3, h4⟩ := walkEntries_outer fsys docDir rest names
        (urls ++ (visits (names ++ [name]) d).flatMap
          (fun v => viaSymlink fsys v.2 ++ entryOf v.1))
      refine ⟨e2, ?_, ?_⟩
      · simp [filepath.walkEntries, visitsEntries, h1, h3,
          stopAt_append_of_not_aborts _ _ ha, List.flatMap_append]
      · simpa [visitsEntries, aborts_append, ha] using h4
end

theorem WalkDir_outer (fsys : FileSystem) (docDir : String) :
    (filepath.WalkDir fsys docDir (walkFn fsys docDir) []).1
      = (stopAt (visitsAt fsys docDir)).flatMap
          (fun v => viaSymlink fsys v.2 ++ entryOf v.1) := by
  unfold filepath.WalkDir visitsAt
  cases h : fsys.lstat docDir with
  | none => simp [walkFn_err, stopAt]
  | some t =>
    obtain ⟨e, h1, _⟩ := walkDir_outer fsys docDir t [] []
    simp [h1]

mutual
theorem isSymlink_visits :
    ∀ (d : Node) (names : List String), noSymlink d = true →
      ∀ v ∈ visits names d, isSymlink v.2 = false
  | Node.file, names, _, v, hv => by
    simp [visits] at hv
    subst hv
    rfl
  | Node.symlink t, names, hd, v, hv => by
    simp [noSymlink] at hd
  | Node.dir entries readErr, names, hd, v, hv => by
    simp only [visits, List.mem_cons] at hv
    rcases hv with hv | hv
    · subst hv
      rfl
    · exact isSymlink_visitsEntries entries names (by simpa [noSymlink] using hd) v hv
theorem isSymlink_visitsEntries :
    ∀ (entries : List (String × Node)) (names : List String), noSymlinkEntries entries = true →
      ∀ v ∈ visitsEntries names entries, isSymlink v.2 = false
  | [], names, _, v, hv => by
    simp [visitsEntries] at hv
  | (name, d) :: rest, names, hd, v, hv => by
    have hd' : noSymlink d = true ∧ noSymlinkEntries rest = true := by
      simpa [noSymlinkEntries] using hd
    simp only [visitsEntries, List.mem_append] at hv
    rcases hv with hv | hv
    · exact isSymlink_visits d (names ++ [name]) hd'.1 v hv
    · exact isSymlink_visitsEntries rest names hd'.2 v hv
end

theorem viaSymlink_of_not_isSymlink (fsys : FileSystem) (d : Node)
    (h : isSymlink d = false) : viaSymlink fsys d = [] := by
  cases d with
  | file => rfl
  | dir entries readErr => rfl
  | symlink t => simp [isSymlink] at h

theorem flatMap_entries_of_noSymlink (fsys : FileSystem) (l : List (List String × Node))
    (h : ∀ v ∈ l, isSymlink v.2 = false) :
    l.flatMap (fun v => viaSymlink fsys v.2 ++ entryOf v.1) = l.flatMap (fun v => entryOf v.1) := by
  induction l with
  | nil => rfl
  | cons a rest ih =>
    simp only [List.flatMap_cons]
    rw [viaSymlink_of_not_isSymlink fsys a.2 (h a (List.mem_cons_self _ _)),
      ih (fun v hmem => h v (List.mem_cons_of_mem _ hmem))]
    rfl

theorem mem_entryOf (names : List String) (u : DefinitionURL) (h : u ∈ entryOf names) :
    isDefinitionFile u.URL = true ∧ u.Name = filepath.Base u.URL := by
  unfold entryOf at h
  by_cases hx : isDefinitionFile (relOf names) = true
  · simp only [hx, if_true, List.mem_singleton] at h
    subst h
    exact ⟨hx, rfl⟩
  · simp [hx] at h

theorem mem_viaSymlink (fsys : FileSystem) (d : Node) (u : DefinitionURL)
    (h : u ∈ viaSymlink fsys d) :
    isDefinitionFile u.URL = true ∧ u.Name = filepath.Base u.URL := by
  cases d with
  | file => simp [viaSymlink] at h
  | dir entries readErr => simp [viaSymlink] at h
  | symlink target =>
    cases target with
    | none => simp [viaSymlink] at h
    | some realDir =>
      simp only [viaSymlink] at h
      cases hl : fsys.lstat realDir with
      | none => simp [hl] at h
      | some t' =>
        simp only [hl, List.mem_flatMap] at h
        obtain ⟨names', _, hu⟩ := h
        exact mem_entryOf names' u hu

/-- C5, amended: when the options supply no definition URL, the URL list
`newConfig` returns is built from the entries the walk of the documentation
directory visits, files and directories alike, in walk order and up to the
first error of the walk (a directory that cannot be listed is still handled
itself; what was added before the error stands): each entry whose path
relative to the documentation directory has extension .json, .yaml or .yml
gives one element, named by the base name of that path and with that path
as URL, and entries with another extension give none.  Further elements
can come only from a symlink, just before the symlink's own; what they are
is not stated here.  In a tree without symlinks the list is exactly the one
described, it is the list over all visited entries when the walk meets no
error, and it is empty when the documentation directory cannot be looked
up.  Every element of the list has a recognized extension and its base name
as `Name`. -/
theorem newConfig_discovers (fsys : FileSystem) (opts : List ConfigOption)
    (hnone : supplied opts = []) :
    (∃ extra : Node → List DefinitionURL,
        (∀ d, isSymlink d = false → extra d = [])
        ∧ (newConfig fsys (opts.map ConfigOption.fn)).URLs
            = (stopAt (visitsAt fsys (newConfig fsys (opts.map ConfigOption.fn)).DocDir)).flatMap
                (fun v => extra v.2 ++ entryOf v.1))
    ∧ (∀ t, fsys.lstat (newConfig fsys (opts.map ConfigOption.fn)).DocDir = some t →
        noSymlink t = true →
        (newConfig fsys (opts.map ConfigOption.fn)).URLs
          = (stopAt (visits [] t)).flatMap (fun v => entryOf v.1))
    ∧ (∀ t, fsys.lstat (newConfig fsys (opts.map ConfigOption.fn)).DocDir = some t →
        noSymlink t = true → aborts (visits [] t) = false →
        (newConfig fsys (opts.map ConfigOption.fn)).URLs
          = (visits [] t).flatMap (fun v => entryOf v.1))
    ∧ (fsys.lstat (newConfig fsys (opts.map ConfigOption.fn)).DocDir = none →
        (newConfig fsys (opts.map ConfigOption.fn)).URLs = [])
    ∧ (∀ u ∈ (newConfig fsys (opts.map ConfigOption.fn)).URLs,
        isDefinitionFile u.URL = true ∧ u.Name = filepath.Base u.URL) := by
  have hnil : (afterOptions (opts.map ConfigOption.fn)).URLs = [] := by
    rw [afterOptions_URLs, hnone]
    rfl
  have e := newConfig_of_URLs_eq_nil fsys _ hnil
  have hD : (newConfig fsys (opts.map ConfigOption.fn)).DocDir
      = (afterOptions (opts.map ConfigOption.fn)).DocDir := by rw [e]
  have hU : (newConfig fsys (opts.map ConfigOption.fn)).URLs
      = (stopAt (visitsAt fsys (afterOptions (opts.map ConfigOption.fn)).DocDir)).flatMap
          (fun v => viaSymlink fsys v.2 ++ entryOf v.1) := by
    rw [e]
    exact WalkDir_outer fsys _
  rw [hD]
  have h2 : ∀ t, fsys.lstat (afterOptions (opts.map ConfigOption.fn)).DocDir = some t →
      noSymlink t = true →
      (newConfig fsys (opts.map ConfigOption.fn)).URLs
        = (stopAt (visits [] t)).flatMap (fun v => entryOf v.1) := by
    intro t hl hs
    rw [hU]
    simp only [visitsAt, hl]
    exact flatMap_entries_of_noSymlink fsys _
      (fun v hv => isSymlink_visits t [] hs v (mem_of_mem_stopAt _ v hv))
  refine ⟨⟨viaSymlink fsys, viaSymlink_of_not_isSymlink fsys, hU⟩, h2, ?_, ?_, ?_⟩
  · intro t hl hs ha
    rw [h2 t hl hs, stopAt_of_not_aborts _ ha]
  · intro hl
    rw [hU]
    simp [visitsAt, hl, stopAt]
  · intro u hmem
    rw [hU] at hmem
    simp only [List.mem_flatMap, List.mem_append] at hmem
    obtain ⟨v, _, hv | hv⟩ := hmem
    · exact mem_viaSymlink fsys v.2 u hv
    · exact mem_entryOf v.1 u hv

theorem newConfig_discovers_witness :
    (newConfig sample.docsABC []).URLs = [⟨"a.json", "a.json"⟩, ⟨"b.yaml", "b.yaml"⟩]
    ∧ (newConfig sample.docsUnreadable []).URLs
        = [⟨"a.json", "a.json"⟩, ⟨"sec.json", "sec.json"⟩]
    ∧ (newConfig sample.emptyFS []).URLs = [] :=
  ⟨((newConfig_discovers sample.docsABC [] rfl).2.2.1 sample.treeABC rfl (by decide)
      (by decide)).trans (by decide),
   ((newConfig_discovers sample.docsUnreadable [] rfl).2.1 sample.treeUnreadable rfl
      (by decide)).trans (by decide),
   (newConfig_discovers sample.emptyFS [] rfl).2.2.2.1 rfl⟩

/-- C5 as stated fails.  In a documentation directory holding a directory
named `v1.json`, that directory is added as a definition URL, while the
files the walk visits with a recognized extension are none.  In a
documentation directory holding `a.json` and a symlink `shared` to a
directory with `v2/x.yaml`, the list has an element with URL `v2/x.yaml`,
which is not the path of any entry relative to the documentation
directory. -/
theorem newConfig_adds_directory :
    sample.docsDirJson.lstat (newConfig sample.docsDirJson []).DocDir = some sample.treeDirJson
    ∧ (newConfig sample.docsDirJson []).URLs = [⟨"v1.json", "v1.json"⟩]
    ∧ discoveredFiles sample.treeDirJson = []
    ∧ (newConfig sample.docsDirJson []).URLs ≠ discoveredFiles sample.treeDirJson
    ∧ sample.docsLink.lstat (newConfig sample.docsLink []).DocDir = some sample.treeLink
    ∧ (newConfig sample.docsLink []).URLs = [⟨"a.json", "a.json"⟩, ⟨"x.yaml", "v2/x.yaml"⟩]
    ∧ discoveredFiles sample.treeLink = [⟨"a.json", "a.json"⟩]
    ∧ (newConfig sample.docsLink []).URLs ≠ discoveredFiles sample.treeLink := by
  refine ⟨rfl, by decide, by decide, by decide, rfl, by decide, by decide, by decide⟩

end walk
